import Mathlib

/-!
Shallow embedding of the RIP routing daemon core (ripmanager.py and the
validation predicates of configmanager.py), together with proofs of the
specification's claims about it.

Modelling conventions:
* Python byte strings are `List ℕ` with each byte in `[0, 256)`.
* `time.time()` instants are integers (`ℤ`).  Every scaled protocol delay
  a claim depends on (`180/6 = 30`, `120/6 = 20`, and the halfway bound
  `30/2 = 15`) is an exact integer, exactly as it is an exact float in
  the source, so the timer comparisons are faithful.
* The routing table (a Python `dict` iterated in insertion order) is an
  association list `List (ℕ × RoutingTableEntry)` in insertion order.
* Mutating methods become functions from the old state to the new state.
-/

/-- `TIME_MULTIPLIER = 6` from ripmanager.py. -/
def TIME_MULTIPLIER : ℤ := 6

/-- `ENTRY_TIMEOUT_DELAY = 180 / TIME_MULTIPLIER` (exactly 30). -/
def ENTRY_TIMEOUT_DELAY : ℤ := 180 / TIME_MULTIPLIER

/-- `GARBAGE_COLLECTION_DELAY = 120 / TIME_MULTIPLIER` (exactly 20). -/
def GARBAGE_COLLECTION_DELAY : ℤ := 120 / TIME_MULTIPLIER

/-- `INFINITE_METRIC = 16`. -/
def INFINITE_METRIC : ℕ := 16

/-- `POISONED_REVERSE = True`. -/
def POISONED_REVERSE : Bool := true

/-- `configmanager.routerid_is_valid`: `1 <= routerid <= 64000`. -/
def routerid_is_valid (routerid : ℕ) : Bool :=
  decide (1 ≤ routerid) && decide (routerid ≤ 64000)

/-- `configmanager.metric_is_valid`: `1 <= metric <= 16`. -/
def metric_is_valid (metric : ℕ) : Bool :=
  decide (1 ≤ metric) && decide (metric ≤ 16)

/-- Big-endian `int.from_bytes`. -/
def from_bytes (l : List ℕ) : ℕ :=
  l.foldl (fun a b => a * 256 + b) 0

/-- Big-endian `int.to_bytes(len)` (the value fits in `len` bytes whenever
the Python call does not raise `OverflowError`). -/
def to_bytes (n len : ℕ) : List ℕ :=
  (List.range len).map (fun i => n / 256 ^ (len - 1 - i) % 256)

/-- A routing table entry (`RoutingTableEntry.__init__` fields); the
constructor's timer initialisation is in `RoutingTableEntry.create`. -/
structure RoutingTableEntry where
  next_hop : ℕ
  metric : ℕ
  time_update_due : ℤ
  time_deletion_due : Option ℤ
deriving Repr, DecidableEq

/-- `RoutingTableEntry.__init__(next_hop, metric)` at time `now`. -/
def RoutingTableEntry.create (now : ℤ) (next_hop metric : ℕ) : RoutingTableEntry :=
  ⟨next_hop, metric, now + ENTRY_TIMEOUT_DELAY, none⟩

/-- `RoutingTableEntry.deletion_process_underway`. -/
def RoutingTableEntry.deletion_process_underway (e : RoutingTableEntry) : Bool :=
  e.time_deletion_due.isSome

/-- `RoutingTableEntry.over_halfway_to_update_due` at time `now`. -/
def RoutingTableEntry.over_halfway_to_update_due (e : RoutingTableEntry) (now : ℤ) : Bool :=
  decide (e.time_update_due - now ≤ ENTRY_TIMEOUT_DELAY / 2)

/-- `RoutingTableEntry.update_entry(next_hop, new_metric)` at time `now`.
The Python method mutates the entry and returns a reason string; the
reason is not modelled, only the state change. -/
def RoutingTableEntry.update_entry (e : RoutingTableEntry) (now : ℤ)
    (next_hop new_metric : ℕ) : RoutingTableEntry :=
  let step : RoutingTableEntry × Bool :=
    if next_hop = e.next_hop then
      ({ e with metric := new_metric }, true)
    else if new_metric < e.metric then
      ({ e with next_hop := next_hop, metric := new_metric }, true)
    else if new_metric ≠ INFINITE_METRIC ∧ new_metric = e.metric ∧
            e.over_halfway_to_update_due now then
      ({ e with next_hop := next_hop, metric := new_metric }, true)
    else
      (e, false)
  if step.2 then
    { step.1 with
      time_update_due := now + ENTRY_TIMEOUT_DELAY,
      time_deletion_due :=
        if step.1.metric < INFINITE_METRIC then none else step.1.time_deletion_due }
  else
    step.1

/-- The guard deciding whether `update_entry` sets its `update_timeouts`
flag (refreshes timers): same next-hop, strictly better metric, or the
RFC 3.9.2 equal-metric heuristic. -/
def RoutingTableEntry.update_refreshes (e : RoutingTableEntry) (now : ℤ)
    (next_hop new_metric : ℕ) : Bool :=
  decide (next_hop = e.next_hop) || decide (new_metric < e.metric) ||
    (decide (new_metric ≠ INFINITE_METRIC) && decide (new_metric = e.metric) &&
      e.over_halfway_to_update_due now)

/-- `RoutingTableEntry.should_begin_deletion` at time `now`. -/
def RoutingTableEntry.should_begin_deletion (e : RoutingTableEntry) (now : ℤ) : Bool :=
  if !e.deletion_process_underway then
    decide (INFINITE_METRIC ≤ e.metric) || decide (e.time_update_due ≤ now)
  else
    false

/-- `RoutingTableEntry.begin_deletion` at time `now` (state change only;
the `assert` precondition is modelled by `begin_deletion_checked`). -/
def RoutingTableEntry.begin_deletion (e : RoutingTableEntry) (now : ℤ) : RoutingTableEntry :=
  { e with metric := INFINITE_METRIC,
           time_deletion_due := some (now + GARBAGE_COLLECTION_DELAY) }

/-- `RoutingTableEntry.begin_deletion` with its
`assert deletion_process_underway() is False` made explicit: `none` is
the `AssertionError` outcome. -/
def RoutingTableEntry.begin_deletion_checked (e : RoutingTableEntry) (now : ℤ) :
    Option RoutingTableEntry :=
  if e.deletion_process_underway then none else some (e.begin_deletion now)

/-- `RoutingTableEntry.should_delete` at time `now`. -/
def RoutingTableEntry.should_delete (e : RoutingTableEntry) (now : ℤ) : Bool :=
  match e.time_deletion_due with
  | some d => decide (d ≤ now)
  | none => false

/-- A decoded RIP entry (`RipEntry.routerid` and `RipEntry.metric`). -/
structure RipEntryD where
  routerid : ℕ
  metric : ℕ
deriving Repr, DecidableEq

/-- A decoded RIP packet (`RipPacket.routerid` and `RipPacket.entries`). -/
structure RipPacketD where
  routerid : ℕ
  entries : List RipEntryD
deriving Repr, DecidableEq

/-- `RipEntry.validate_rip_entry`: all six assertions as one boolean. -/
def validate_rip_entry (entry : List ℕ) : Bool :=
  (entry.length == 20) &&
  (from_bytes (entry.take 2) == 2) &&
  (from_bytes ((entry.drop 2).take 2) == 0) &&
  routerid_is_valid (from_bytes ((entry.drop 4).take 4)) &&
  (from_bytes ((entry.drop 8).take 8) == 0) &&
  metric_is_valid (from_bytes ((entry.drop 16).take 4))

/-- `RipEntry.__init__`'s field extraction from a 20-byte slice. -/
def parse_rip_entry (entry : List ℕ) : RipEntryD :=
  ⟨from_bytes ((entry.drop 4).take 4), from_bytes ((entry.drop 16).take 4)⟩

/-- Fuel-driven worker for `chunks20`; the fuel only bounds the number of
slices, so any fuel at least `l.length` gives the same result. -/
def chunks20_go : ℕ → List ℕ → List (List ℕ)
  | _, [] => []
  | 0, _ :: _ => []
  | fuel + 1, b :: rest => ((b :: rest).take 20) :: chunks20_go fuel ((b :: rest).drop 20)

/-- Successive 20-byte slices of a byte string: the slices
`packet[i : i+20]` taken by `for i in range(4, len(packet), 20)` once the
leading 4 bytes are dropped (Python slicing truncates a short tail, so
does `List.take`). -/
def chunks20 (l : List ℕ) : List (List ℕ) :=
  chunks20_go l.length l

/-- `RipPacket.validate_rip_packet`: all header assertions as one boolean
(the assertions run in order, so the later truncated-subtraction and
indexing are only reached with the length already known ≥ 24). -/
def validate_rip_packet (packet : List ℕ) : Bool :=
  decide (4 + 20 ≤ packet.length) &&
  decide (packet.length ≤ 4 + 20 * 25) &&
  ((packet.length - 4) % 20 == 0) &&
  (packet.getD 0 0 == 2) &&
  (packet.getD 1 0 == 2) &&
  routerid_is_valid (from_bytes ((packet.drop 2).take 2))

/-- `RipPacket.__init__`: `none` is the `AssertionError`-escape for an
invalid header; entries failing `validate_rip_entry` are dropped one by
one. -/
def RipPacket.decode (packet : List ℕ) : Option RipPacketD :=
  if validate_rip_packet packet then
    some ⟨from_bytes ((packet.drop 2).take 2),
          (chunks20 (packet.drop 4)).filterMap (fun c =>
            if validate_rip_entry c then some (parse_rip_entry c) else none)⟩
  else
    none

/-- The validated configuration seen by the RIP manager: `router_id` and
`outputs` as a list of `(neighbour router-id, (port, metric))`. -/
structure Config where
  router_id : ℕ
  outputs : List (ℕ × ℕ × ℕ)
deriving Repr, DecidableEq

/-- `self.output_routers[rid]` lookup (`None` when `rid not in outputs`). -/
def Config.lookup_output (cfg : Config) (rid : ℕ) : Option (ℕ × ℕ) :=
  (cfg.outputs.find? (fun p => p.1 == rid)).map Prod.snd

/-- The routing table: a Python dict in insertion order. -/
abbrev RoutingTable := List (ℕ × RoutingTableEntry)

/-- `destination in self.routing_table.keys()`. -/
def table_has_key (t : RoutingTable) (d : ℕ) : Bool :=
  t.any (fun p => p.1 == d)

/-- `self.routing_table[d]` (`none` when absent). -/
def table_lookup (t : RoutingTable) (d : ℕ) : Option RoutingTableEntry :=
  (t.find? (fun p => p.1 == d)).map Prod.snd

/-- In-place mutation of the dict value at key `d`. -/
def table_update (t : RoutingTable) (d : ℕ) (f : RoutingTableEntry → RoutingTableEntry) :
    RoutingTable :=
  t.map (fun p => if p.1 = d then (p.1, f p.2) else p)

/-- `RipManager.add_to_table(destination, next_hop, metric)` at time `now`. -/
def add_to_table (cfg : Config) (now : ℤ) (t : RoutingTable)
    (destination next_hop metric : ℕ) : RoutingTable :=
  if destination = cfg.router_id then
    t
  else if table_has_key t destination then
    table_update t destination (fun e => e.update_entry now next_hop metric)
  else if metric < INFINITE_METRIC then
    t ++ [(destination, RoutingTableEntry.create now next_hop metric)]
  else
    t

/-- `RipManager.incoming_message(message)` at time `now`: its effect on
the routing table (the debug logging has no state effect). -/
def incoming_message (cfg : Config) (now : ℤ) (t : RoutingTable)
    (message : List ℕ) : RoutingTable :=
  match RipPacket.decode message with
  | none => t
  | some pkt =>
    match cfg.lookup_output pkt.routerid with
    | none => t
    | some (_, metric_to_next_hop) =>
      let t1 := add_to_table cfg now t pkt.routerid pkt.routerid metric_to_next_hop
      pkt.entries.foldl
        (fun acc ent =>
          add_to_table cfg now acc ent.routerid pkt.routerid
            (min (metric_to_next_hop + ent.metric) INFINITE_METRIC))
        t1

/-- The routing-table effect of `RipManager.send_any_updates` at time
`now`: entries whose `should_delete()` holds are removed, and
`begin_deletion()` runs on the remaining entries whose
`should_begin_deletion()` holds (in the source the deletions are
collected during the same single pass and applied after it). -/
def send_any_updates_table (now : ℤ) (t : RoutingTable) : RoutingTable :=
  (t.filter (fun p => !p.2.should_delete now)).map
    (fun p => if p.2.should_begin_deletion now then (p.1, p.2.begin_deletion now) else p)

/-- `send_any_updates_table` with `begin_deletion`'s assertion made
explicit: `none` means some `begin_deletion()` call raised
`AssertionError`. -/
def send_any_updates_checked (now : ℤ) (t : RoutingTable) : Option RoutingTable :=
  (t.filter (fun p => !p.2.should_delete now)).mapM
    (fun p =>
      if p.2.should_begin_deletion now then
        (p.2.begin_deletion_checked now).map (fun e => (p.1, e))
      else
        some p)

/-- `RipManager.empty_rip_packet`. -/
def empty_rip_packet (our_routerid : ℕ) : List ℕ :=
  [2, 2] ++ to_bytes our_routerid 2

/-- `rip_entry(destination, metric)`. -/
def rip_entry (destination metric : ℕ) : List ℕ :=
  to_bytes 2 2 ++ [0, 0] ++ to_bytes destination 4 ++
    List.replicate 8 0 ++ to_bytes metric 4

/-- One iteration of the `build_packets` loop body on the accumulator
`(packets, packet)`. -/
def build_packets_step (our_routerid destination_router_id : ℕ)
    (acc : List (List ℕ) × List ℕ) (p : ℕ × RoutingTableEntry) :
    List (List ℕ) × List ℕ :=
  if p.2.next_hop = destination_router_id ∧ ¬POISONED_REVERSE then
    acc
  else
    let metric := if p.2.next_hop = destination_router_id then INFINITE_METRIC else p.2.metric
    if 4 + 20 * 25 ≤ acc.2.length then
      (acc.1 ++ [acc.2], empty_rip_packet our_routerid ++ rip_entry p.1 metric)
    else
      (acc.1, acc.2 ++ rip_entry p.1 metric)

/-- `RipManager.build_packets(destination_router_id)` over the routing
table `t`. -/
def build_packets (our_routerid : ℕ) (t : RoutingTable)
    (destination_router_id : ℕ) : List (List ℕ) :=
  let start := empty_rip_packet our_routerid ++
    rip_entry destination_router_id INFINITE_METRIC
  let acc := t.foldl (build_packets_step our_routerid destination_router_id) ([], start)
  acc.1 ++ [acc.2]

/-- Reachable routing-table states of a RIP manager running with
configuration `cfg`: the table starts empty and evolves by processing
arbitrary datagrams (`incoming_message`) and by the timer pass of
`send_any_updates`, each at an arbitrary instant. -/
inductive Reachable (cfg : Config) : RoutingTable → Prop
  | init : Reachable cfg []
  | recv (t : RoutingTable) (now : ℤ) (msg : List ℕ) (h : Reachable cfg t) :
      Reachable cfg (incoming_message cfg now t msg)
  | tick (t : RoutingTable) (now : ℤ) (h : Reachable cfg t) :
      Reachable cfg (send_any_updates_table now t)

/-- The five header checks of the specification, spelled as the claim
states them: length in `[24, 504]`, length ≡ 4 (mod 20), command byte 2,
version byte 2, sender router-id in `[1, 64000]`. -/
def header_ok (packet : List ℕ) : Bool :=
  decide (24 ≤ packet.length) && decide (packet.length ≤ 504) &&
  (packet.length % 20 == 4) && (packet.getD 0 0 == 2) && (packet.getD 1 0 == 2) &&
  decide (1 ≤ from_bytes ((packet.drop 2).take 2)) &&
  decide (from_bytes ((packet.drop 2).take 2) ≤ 64000)

/-- The entry list the specification prescribes: of the consecutive
20-byte entry slices, exactly those that pass per-entry validation, in
order. -/
def entries_spec (packet : List ℕ) : List RipEntryD :=
  ((chunks20 (packet.drop 4)).filter validate_rip_entry).map parse_rip_entry

/-- The encoder the claim describes: the header built by
`empty_rip_packet` followed by one `rip_entry` per element. -/
def encode_packet (routerid : ℕ) (E : List RipEntryD) : List ℕ :=
  empty_rip_packet routerid ++ (E.map (fun e => rip_entry e.routerid e.metric)).flatten

/-- A routing table with 25 destinations, all via next-hop 50 with
metric 3, forcing `build_packets` to split. -/
def c1_table : RoutingTable :=
  (List.range 25).map (fun k => (k + 1, ⟨50, 3, 30, none⟩))

/-- The invariant carried through the `build_packets` fold: either no
packet has been flushed yet and the working packet extends the leading
24 bytes, or the first flushed packet starts with those 24 bytes. -/
def build_packets_inv (start : List ℕ) (acc : List (List ℕ) × List ℕ) : Prop :=
  (acc.1 = [] ∧ acc.2.take 24 = start ∧ 24 ≤ acc.2.length) ∨
    (acc.1.headI.take 24 = start ∧ acc.1 ≠ [])

/-- What config validation (`validate_metric`) guarantees about every
configured link metric. -/
def outputs_metrics_valid (cfg : Config) : Prop :=
  ∀ p ∈ cfg.outputs, 1 ≤ p.2.2 ∧ p.2.2 ≤ 16

theorem chunks20_go_nil (f : ℕ) : chunks20_go f [] = [] := by
  cases f <;> rfl

theorem chunks20_go_fuel :
    ∀ (fuel fuel' : ℕ) (l : List ℕ), l.length ≤ fuel → l.length ≤ fuel' →
      chunks20_go fuel l = chunks20_go fuel' l := by
  intro fuel
  induction fuel with
  | zero =>
    intro fuel' l h _
    have hl : l = [] := List.length_eq_zero.mp (Nat.le_zero.mp h)
    subst hl
    rw [chunks20_go_nil, chunks20_go_nil]
  | succ n ih =>
    intro fuel' l h h'
    cases l with
    | nil => rw [chunks20_go_nil, chunks20_go_nil]
    | cons b rest =>
      cases fuel' with
      | zero => simp at h'
      | succ g =>
        have hn : rest.length ≤ n := by simpa using h
        have hg : rest.length ≤ g := by simpa using h'
        simp only [chunks20_go]
        refine congrArg _ (ih g _ ?_ ?_) <;> simp <;> omega

@[simp]
theorem chunks20_nil : chunks20 [] = [] := rfl

theorem chunks20_cons (b : ℕ) (rest : List ℕ) :
    chunks20 (b :: rest) =
      ((b :: rest).take 20) :: chunks20 ((b :: rest).drop 20) := by
  show chunks20_go (rest.length + 1) (b :: rest) = _
  simp only [chunks20_go, chunks20]
  refine congrArg _ (chunks20_go_fuel _ _ _ ?_ ?_) <;> simp

/-- A total `Option`-valued traversal succeeds and is the plain map. -/
theorem mapM_some_of_total {α β : Type} (f : α → Option β) (g : α → β)
    (hfg : ∀ a, f a = some (g a)) :
    ∀ l : List α, l.mapM f = some (l.map g) := by
  intro l
  induction l with
  | nil => rfl
  | cons a l ih =>
    rw [List.mapM_cons, hfg, ih]
    rfl

/-- `should_begin_deletion` only fires outside the deletion phase. -/
theorem should_begin_deletion_not_underway (e : RoutingTableEntry) (now : ℤ)
    (h : e.should_begin_deletion now = true) :
    e.deletion_process_underway = false := by
  by_contra hu
  simp only [RoutingTableEntry.should_begin_deletion] at h
  rw [Bool.not_eq_false] at hu
  simp [hu] at h

/-- C3: an update delivered by the current next hop is always treated as a
keepalive: the metric is replaced by `new_metric` unconditionally (16 and
back included), `time_update_due` becomes `now + ENTRY_TIMEOUT_DELAY`, and
the clearing step sets `time_deletion_due` to `none` exactly when the
resulting metric is below 16 (otherwise the old value is kept). -/
theorem update_entry_same_next_hop_keepalive (e : RoutingTableEntry) (now : ℤ)
    (next_hop new_metric : ℕ) (h : next_hop = e.next_hop) :
    e.update_entry now next_hop new_metric =
      ⟨e.next_hop, new_metric, now + ENTRY_TIMEOUT_DELAY,
        if new_metric < INFINITE_METRIC then none else e.time_deletion_due⟩ := by
  subst h
  simp [RoutingTableEntry.update_entry]

/-- Closed instance of `update_entry_same_next_hop_keepalive`: a same
next-hop update drops the metric from 16 back to 3 and clears the
deletion timer. -/
theorem update_entry_same_next_hop_keepalive_witness :
    (RoutingTableEntry.mk 2 16 30 (some 50)).update_entry 5 2 3 =
      ⟨2, 3, 35, none⟩ :=
  update_entry_same_next_hop_keepalive ⟨2, 16, 30, some 50⟩ 5 2 3 (by decide)

/-- C2: with a different next hop and a metric that is not strictly
better, the entry adopts the new next hop and refreshes its timers
exactly when the new metric equals the stored one, is not 16, and the
entry is over halfway to its update-due time; in every other such case
the entry is unchanged. -/
theorem update_entry_different_next_hop_characterisation (e : RoutingTableEntry)
    (now : ℤ) (next_hop new_metric : ℕ)
    (hnh : next_hop ≠ e.next_hop) (hm : ¬ new_metric < e.metric) :
    (new_metric = e.metric ∧ new_metric ≠ INFINITE_METRIC ∧
        e.time_update_due - now ≤ ENTRY_TIMEOUT_DELAY / 2 →
      e.update_entry now next_hop new_metric =
        ⟨next_hop, new_metric, now + ENTRY_TIMEOUT_DELAY,
          if new_metric < INFINITE_METRIC then none else e.time_deletion_due⟩)
    ∧ (¬(new_metric = e.metric ∧ new_metric ≠ INFINITE_METRIC ∧
          e.time_update_due - now ≤ ENTRY_TIMEOUT_DELAY / 2) →
      e.update_entry now next_hop new_metric = e) := by
  constructor
  · rintro ⟨h1, h2, h3⟩
    subst h1
    simp [RoutingTableEntry.update_entry, hnh, hm, h2,
      RoutingTableEntry.over_halfway_to_update_due, h3]
  · intro hno
    by_cases hne : new_metric = INFINITE_METRIC
    · subst hne
      simp [RoutingTableEntry.update_entry, hnh, hm]
    · by_cases heq : new_metric = e.metric
      · by_cases hhw : e.time_update_due - now ≤ ENTRY_TIMEOUT_DELAY / 2
        · exact absurd ⟨heq, hne, hhw⟩ hno
        · subst heq
          simp [RoutingTableEntry.update_entry, hnh,
            RoutingTableEntry.over_halfway_to_update_due, hhw]
      · simp [RoutingTableEntry.update_entry, hnh, hm, heq]

/-- Closed instance of `update_entry_different_next_hop_characterisation`:
an equal-metric update from a different next hop is adopted once the
entry is over halfway to its update-due time. -/
theorem update_entry_different_next_hop_characterisation_witness :
    (RoutingTableEntry.mk 2 5 30 none).update_entry 20 3 5 = ⟨3, 5, 50, none⟩ :=
  (update_entry_different_next_hop_characterisation ⟨2, 5, 30, none⟩ 20 3 5
      (by decide) (by decide)).1 (by decide)

/-- C10: `should_begin_deletion` and `should_delete` are mutually
exclusive (the former requires `time_deletion_due` unset, the latter
requires it set), so running `send_any_updates`' per-entry pass with
`begin_deletion`'s assertion checked never raises: the checked pass
returns exactly the unchecked table. -/
theorem begin_deletion_assertion_never_fails :
    (∀ (e : RoutingTableEntry) (now : ℤ),
        e.should_begin_deletion now = false ∨ e.should_delete now = false)
    ∧ (∀ (e : RoutingTableEntry) (now : ℤ),
        e.should_begin_deletion now = false ∨ e.time_deletion_due = none)
    ∧ (∀ (now : ℤ) (t : RoutingTable),
        send_any_updates_checked now t = some (send_any_updates_table now t)) := by
  have hdue : ∀ (e : RoutingTableEntry) (now : ℤ),
      e.should_begin_deletion now = true → e.time_deletion_due = none := by
    intro e now h
    have := should_begin_deletion_not_underway e now h
    simpa [RoutingTableEntry.deletion_process_underway] using this
  refine ⟨?_, ?_, ?_⟩
  · intro e now
    rcases h : e.should_begin_deletion now with _ | _
    · exact Or.inl rfl
    · refine Or.inr ?_
      simp [RoutingTableEntry.should_delete, hdue e now h]
  · intro e now
    rcases h : e.should_begin_deletion now with _ | _
    · exact Or.inl rfl
    · exact Or.inr (hdue e now h)
  · intro now t
    unfold send_any_updates_checked send_any_updates_table
    apply mapM_some_of_total
    intro p
    rcases h : p.2.should_begin_deletion now with _ | _
    · simp [h]
    · have := hdue p.2 now h
      simp [h, RoutingTableEntry.begin_deletion_checked,
        RoutingTableEntry.deletion_process_underway, this]

/-- Membership in a Python dict's key view agrees with lookup success. -/
theorem table_has_key_eq_isSome (t : RoutingTable) (d : ℕ) :
    table_has_key t d = (table_lookup t d).isSome := by
  rw [Bool.eq_iff_iff]
  simp [table_has_key, table_lookup, List.any_eq_true, List.find?_isSome]

/-- C7: `add_to_table` ignores the router's own id; updates an existing
entry through its update rule; and otherwise creates a fresh entry (with
`time_update_due = now + ENTRY_TIMEOUT_DELAY` and no deletion timer)
exactly when the metric is below 16. -/
theorem add_to_table_characterisation (cfg : Config) (now : ℤ) (t : RoutingTable)
    (dest next_hop metric : ℕ) :
    (dest = cfg.router_id → add_to_table cfg now t dest next_hop metric = t)
    ∧ (dest ≠ cfg.router_id → (table_lookup t dest).isSome = true →
        add_to_table cfg now t dest next_hop metric =
          table_update t dest (fun e => e.update_entry now next_hop metric))
    ∧ (dest ≠ cfg.router_id → table_lookup t dest = none →
        add_to_table cfg now t dest next_hop metric =
          if metric < INFINITE_METRIC then
            t ++ [(dest, ⟨next_hop, metric, now + ENTRY_TIMEOUT_DELAY, none⟩)]
          else t) := by
  refine ⟨?_, ?_, ?_⟩
  · intro h
    simp [add_to_table, h]
  · intro h hsome
    simp [add_to_table, h, table_has_key_eq_isSome, hsome]
  · intro h hnone
    have hk : table_has_key t dest = false := by
      rw [table_has_key_eq_isSome, hnone]
      rfl
    rcases hm : decide (metric < INFINITE_METRIC) with _ | _
    · simp only [decide_eq_false_iff_not] at hm
      simp [add_to_table, h, hk, hm]
    · simp only [decide_eq_true_eq] at hm
      simp [add_to_table, h, hk, hm, RoutingTableEntry.create]

/-- Closed instance of `add_to_table_characterisation`: a known
destination is routed through the update rule. -/
theorem add_to_table_characterisation_witness :
    add_to_table ⟨1, [(2, 2000, 1)]⟩ 0 [(3, ⟨2, 5, 10, none⟩)] 3 4 4 =
      [(3, ⟨4, 4, 30, none⟩)] := by
  have h := (add_to_table_characterisation ⟨1, [(2, 2000, 1)]⟩ 0
      [(3, ⟨2, 5, 10, none⟩)] 3 4 4).2.1 (by decide) (by decide)
  rw [h]
  decide

theorem filterMap_if_eq_map_filter {α β : Type} (v : α → Bool) (p : α → β) :
    ∀ l : List α,
      l.filterMap (fun c => if v c then some (p c) else none) =
        (l.filter v).map p := by
  intro l
  induction l with
  | nil => rfl
  | cons a l ih =>
    by_cases h : v a <;> simp [h, ih]

theorem validate_rip_packet_eq_header_ok (packet : List ℕ) :
    validate_rip_packet packet = header_ok packet := by
  rcases hlen : decide (24 ≤ packet.length) with _ | _
  · simp only [decide_eq_false_iff_not, not_le] at hlen
    have h1 : decide (4 + 20 ≤ packet.length) = false := by
      simp only [decide_eq_false_iff_not, not_le]
      omega
    have h2 : decide (24 ≤ packet.length) = false := by
      simp only [decide_eq_false_iff_not, not_le]
      omega
    simp [validate_rip_packet, header_ok, h1, h2]
  · simp only [decide_eq_true_eq] at hlen
    have h1 : decide (4 + 20 ≤ packet.length) = true := by
      simp only [decide_eq_true_eq]
      omega
    have h2 : decide (24 ≤ packet.length) = true := by
      simp only [decide_eq_true_eq]
      omega
    have h3 : ((packet.length - 4) % 20 == 0) = (packet.length % 20 == 4) := by
      rw [Bool.eq_iff_iff, Nat.beq_eq_true_eq, Nat.beq_eq_true_eq]
      omega
    have h4 : (4 + 20 * 25 : ℕ) = 504 := by norm_num
    simp only [validate_rip_packet, header_ok, h1, h2, h3, h4, routerid_is_valid,
      Bool.and_assoc]

/-- C5: decoding rejects the whole packet exactly when one of the header
checks fails, and with a valid header it keeps exactly the 20-byte entry
slices that pass per-entry validation, in order. -/
theorem decode_header_all_or_nothing_entries_filtered (packet : List ℕ) :
    RipPacket.decode packet =
      if header_ok packet then
        some ⟨from_bytes ((packet.drop 2).take 2), entries_spec packet⟩
      else
        none := by
  rw [RipPacket.decode, validate_rip_packet_eq_header_ok]
  rcases h : header_ok packet with _ | _
  · simp [h]
  · simp [h, entries_spec, filterMap_if_eq_map_filter]

theorem to_bytes_length (n len : ℕ) : (to_bytes n len).length = len := by
  simp [to_bytes]

theorem to_bytes_two (n : ℕ) : to_bytes n 2 = [n / 256 % 256, n % 256] := by
  show (List.range 2).map _ = _
  rw [List.range_succ, List.range_succ, List.range_zero]
  norm_num

theorem to_bytes_four (n : ℕ) :
    to_bytes n 4 =
      [n / 16777216 % 256, n / 65536 % 256, n / 256 % 256, n % 256] := by
  show (List.range 4).map _ = _
  rw [List.range_succ, List.range_succ, List.range_succ, List.range_succ, List.range_zero]
  norm_num [Nat.pow_succ]

theorem from_bytes_to_bytes_two (n : ℕ) (h : n < 65536) :
    from_bytes (to_bytes n 2) = n := by
  rw [to_bytes_two]
  simp [from_bytes]
  omega

theorem from_bytes_four_digits (n : ℕ) (h : n < 4294967296) :
    from_bytes [n / 16777216 % 256, n / 65536 % 256, n / 256 % 256, n % 256] = n := by
  simp [from_bytes]
  omega

theorem rip_entry_length (destination metric : ℕ) :
    (rip_entry destination metric).length = 20 := by
  simp [rip_entry, to_bytes_length]

theorem rip_entry_explicit (destination metric : ℕ) :
    rip_entry destination metric =
      [0, 2, 0, 0,
       destination / 16777216 % 256, destination / 65536 % 256,
       destination / 256 % 256, destination % 256,
       0, 0, 0, 0, 0, 0, 0, 0,
       metric / 16777216 % 256, metric / 65536 % 256,
       metric / 256 % 256, metric % 256] := by
  have h2 : to_bytes 2 2 = [0, 2] := by decide
  rw [rip_entry, h2, to_bytes_four, to_bytes_four]
  rfl

theorem validate_rip_entry_rip_entry (destination metric : ℕ)
    (hd : 1 ≤ destination ∧ destination ≤ 64000)
    (hm : 1 ≤ metric ∧ metric ≤ 16) :
    validate_rip_entry (rip_entry destination metric) = true := by
  have hd4 : from_bytes [destination / 16777216 % 256, destination / 65536 % 256,
      destination / 256 % 256, destination % 256] = destination :=
    from_bytes_four_digits destination (by omega)
  have hm4 : from_bytes [metric / 16777216 % 256, metric / 65536 % 256,
      metric / 256 % 256, metric % 256] = metric :=
    from_bytes_four_digits metric (by omega)
  rw [rip_entry_explicit]
  simp only [validate_rip_entry, List.length_cons, List.length_nil, List.take_succ_cons,
    List.take_zero, List.drop_succ_cons, List.drop_zero]
  rw [hd4, hm4]
  simp [routerid_is_valid, metric_is_valid, hd.1, hd.2, hm.1, hm.2, from_bytes]

theorem parse_rip_entry_rip_entry (destination metric : ℕ)
    (hd : destination < 4294967296) (hm : metric < 4294967296) :
    parse_rip_entry (rip_entry destination metric) = ⟨destination, metric⟩ := by
  rw [rip_entry_explicit]
  simp only [parse_rip_entry, List.take_succ_cons, List.take_zero,
    List.drop_succ_cons, List.drop_zero]
  rw [from_bytes_four_digits destination hd, from_bytes_four_digits metric hm]

theorem chunks20_join (L : List (List ℕ)) (h : ∀ c ∈ L, c.length = 20) :
    chunks20 L.flatten = L := by
  induction L with
  | nil => simp
  | cons c L ih =>
    have hc : c.length = 20 := h c (List.mem_cons_self c L)
    cases c with
    | nil => simp at hc
    | cons b cb =>
      rw [List.flatten_cons, List.cons_append, chunks20_cons, ← List.cons_append,
        List.take_left' hc, List.drop_left' hc,
        ih (fun d hd => h d (List.mem_cons_of_mem _ hd))]

theorem filterMap_total_id {α : Type} (f : α → Option α) :
    ∀ l : List α, (∀ a ∈ l, f a = some a) → l.filterMap f = l := by
  intro l
  induction l with
  | nil => intro _; rfl
  | cons a l ih =>
    intro h
    rw [List.filterMap_cons, h a (List.mem_cons_self a l),
      ih (fun b hb => h b (List.mem_cons_of_mem _ hb))]

theorem empty_rip_packet_cons (routerid : ℕ) :
    empty_rip_packet routerid = 2 :: 2 :: to_bytes routerid 2 := rfl

theorem encode_packet_length (routerid : ℕ) (E : List RipEntryD) :
    (encode_packet routerid E).length = 4 + 20 * E.length := by
  rw [encode_packet, List.length_append]
  have h1 : (empty_rip_packet routerid).length = 4 := by
    simp [empty_rip_packet, to_bytes_length]
  have h2 : ∀ F : List RipEntryD,
      ((F.map (fun e => rip_entry e.routerid e.metric)).flatten).length = 20 * F.length := by
    intro F
    induction F with
    | nil => simp
    | cons e F ih =>
      simp only [List.map_cons, List.flatten_cons, List.length_append, ih,
        rip_entry_length, List.length_cons]
      ring
  rw [h1, h2]

/-- C6: decoding a packet assembled from the encoder (header from
`empty_rip_packet`, then one `rip_entry` per element) returns exactly the
original sender router-id and entry list, for 1–25 entries with in-range
ids and metrics. -/
theorem decode_encode_roundtrip (routerid : ℕ) (E : List RipEntryD)
    (hrid : 1 ≤ routerid ∧ routerid ≤ 64000)
    (hlen : 1 ≤ E.length ∧ E.length ≤ 25)
    (hE : ∀ e ∈ E, (1 ≤ e.routerid ∧ e.routerid ≤ 64000) ∧
      1 ≤ e.metric ∧ e.metric ≤ 16) :
    RipPacket.decode (encode_packet routerid E) = some ⟨routerid, E⟩ := by
  have hjoin : ∀ c ∈ E.map (fun e => rip_entry e.routerid e.metric), c.length = 20 := by
    intro c hc
    rw [List.mem_map] at hc
    obtain ⟨e, _, rfl⟩ := hc
    exact rip_entry_length e.routerid e.metric
  have hdrop2 : (encode_packet routerid E).drop 2 =
      to_bytes routerid 2 ++ (E.map (fun e => rip_entry e.routerid e.metric)).flatten := by
    rw [encode_packet, empty_rip_packet_cons]
    rfl
  have hrid2 : from_bytes (((encode_packet routerid E).drop 2).take 2) = routerid := by
    rw [hdrop2, List.take_left' (to_bytes_length routerid 2),
      from_bytes_to_bytes_two routerid (by omega)]
  have hdrop4 : (encode_packet routerid E).drop 4 =
      (E.map (fun e => rip_entry e.routerid e.metric)).flatten := by
    rw [encode_packet, empty_rip_packet_cons, to_bytes_two]
    rfl
  have hvalid : validate_rip_packet (encode_packet routerid E) = true := by
    have hl := encode_packet_length routerid E
    simp only [validate_rip_packet, hl, hrid2, Bool.and_eq_true, decide_eq_true_eq,
      beq_iff_eq, routerid_is_valid]
    refine ⟨⟨⟨⟨⟨by omega, by omega⟩, by omega⟩, ?_⟩, ?_⟩, by omega, by omega⟩
    · rw [encode_packet, empty_rip_packet_cons]
      rfl
    · rw [encode_packet, empty_rip_packet_cons]
      rfl
  rw [RipPacket.decode, if_pos hvalid, hrid2, hdrop4,
    chunks20_join _ hjoin, List.filterMap_map]
  refine congrArg _ (congrArg _ ?_)
  apply filterMap_total_id
  intro e he
  obtain ⟨⟨h1, h2⟩, h3, h4⟩ := hE e he
  show (if validate_rip_entry (rip_entry e.routerid e.metric) then
      some (parse_rip_entry (rip_entry e.routerid e.metric)) else none) = some e
  rw [if_pos (validate_rip_entry_rip_entry e.routerid e.metric ⟨h1, h2⟩ ⟨h3, h4⟩),
    parse_rip_entry_rip_entry e.routerid e.metric (by omega) (by omega)]

/-- Closed instance of `decode_encode_roundtrip` at router-id 2 and a
single entry `(3, 4)`. -/
theorem decode_encode_roundtrip_witness :
    RipPacket.decode (encode_packet 2 [⟨3, 4⟩]) = some ⟨2, [⟨3, 4⟩]⟩ :=
  decode_encode_roundtrip 2 [⟨3, 4⟩] (by decide) (by decide) (by decide)

set_option maxRecDepth 100000 in
/-- Counterexample to C1 as stated: with 25 routing entries the table is
split into two packets, and the second packet's first RIP entry is the
25th table entry `(25, 3)`, not the receiver's `(100, 16)`. -/
theorem build_packets_split_drops_leading_entry :
    (build_packets 1 c1_table 100).length = 2 ∧
    (((build_packets 1 c1_table 100).getD 1 []).drop 4).take 20 = rip_entry 25 3 ∧
    rip_entry 25 3 ≠ rip_entry 100 INFINITE_METRIC := by
  decide

theorem build_packets_step_eq (our_routerid destination_router_id : ℕ)
    (acc : List (List ℕ) × List ℕ) (p : ℕ × RoutingTableEntry) :
    build_packets_step our_routerid destination_router_id acc p =
      if p.2.next_hop = destination_router_id ∧ ¬POISONED_REVERSE then acc
      else if 4 + 20 * 25 ≤ acc.2.length then
        (acc.1 ++ [acc.2],
          empty_rip_packet our_routerid ++ rip_entry p.1
            (if p.2.next_hop = destination_router_id then INFINITE_METRIC else p.2.metric))
      else
        (acc.1, acc.2 ++ rip_entry p.1
          (if p.2.next_hop = destination_router_id then INFINITE_METRIC else p.2.metric)) :=
  rfl

theorem build_packets_step_inv (our_routerid destination_router_id : ℕ)
    (start : List ℕ) (acc : List (List ℕ) × List ℕ) (p : ℕ × RoutingTableEntry)
    (h : build_packets_inv start acc) :
    build_packets_inv start (build_packets_step our_routerid destination_router_id acc p) := by
  rw [build_packets_step_eq]
  by_cases hskip : p.2.next_hop = destination_router_id ∧ ¬POISONED_REVERSE = true
  · rw [if_pos hskip]
    exact h
  · rw [if_neg hskip]
    by_cases hfull : 4 + 20 * 25 ≤ acc.2.length
    · rw [if_pos hfull]
      rcases h with ⟨h1, h2, _⟩ | ⟨h1, h2⟩
      · refine Or.inr ⟨?_, by simp [h1]⟩
        simp only [h1, List.nil_append, List.headI]
        exact h2
      · cases hl : acc.1 with
        | nil => exact absurd hl h2
        | cons a l =>
          refine Or.inr ⟨?_, by simp⟩
          rw [hl] at h1
          simpa using h1
    · rw [if_neg hfull]
      rcases h with ⟨h1, h2, h3⟩ | ⟨h1, h2⟩
      · refine Or.inl ⟨h1, ?_, ?_⟩
        · rw [List.take_append_of_le_length h3, h2]
        · rw [List.length_append]
          omega
      · exact Or.inr ⟨h1, h2⟩

theorem build_packets_foldl_inv (our_routerid destination_router_id : ℕ)
    (start : List ℕ) :
    ∀ (t : RoutingTable) (acc : List (List ℕ) × List ℕ),
      build_packets_inv start acc →
      build_packets_inv start
        (t.foldl (build_packets_step our_routerid destination_router_id) acc) := by
  intro t
  induction t with
  | nil => intro acc h; exact h
  | cons p t ih =>
    intro acc h
    exact ih _ (build_packets_step_inv our_routerid destination_router_id start acc p h)

/-- C1 amended: the FIRST packet returned by `build_packets` always
starts with the 4-byte header followed by the RIP entry
`(destination_router_id, 16)`; continuation packets produced by the
25-entry split do not repeat this leading entry (see the
counterexample). -/
theorem build_packets_eq (our_routerid : ℕ) (t : RoutingTable)
    (destination_router_id : ℕ) :
    build_packets our_routerid t destination_router_id =
      (t.foldl (build_packets_step our_routerid destination_router_id)
        ([], empty_rip_packet our_routerid ++
          rip_entry destination_router_id INFINITE_METRIC)).1 ++
      [(t.foldl (build_packets_step our_routerid destination_router_id)
        ([], empty_rip_packet our_routerid ++
          rip_entry destination_router_id INFINITE_METRIC)).2] :=
  rfl

theorem build_packets_first_packet_leading_entry (our_routerid : ℕ)
    (t : RoutingTable) (destination_router_id : ℕ) :
    ((build_packets our_routerid t destination_router_id).headI).take 24 =
      empty_rip_packet our_routerid ++
        rip_entry destination_router_id INFINITE_METRIC := by
  have hstartlen :
      (empty_rip_packet our_routerid ++
        rip_entry destination_router_id INFINITE_METRIC).length = 24 := by
    simp [empty_rip_packet, to_bytes_length, rip_entry_length]
  have h0 : build_packets_inv
      (empty_rip_packet our_routerid ++ rip_entry destination_router_id INFINITE_METRIC)
      ([], empty_rip_packet our_routerid ++
        rip_entry destination_router_id INFINITE_METRIC) := by
    refine Or.inl ⟨rfl, ?_, by simp only; omega⟩
    show (empty_rip_packet our_routerid ++
      rip_entry destination_router_id INFINITE_METRIC).take 24 = _
    rw [← hstartlen, List.take_length]
  have hinv := build_packets_foldl_inv our_routerid destination_router_id _ t _ h0
  rw [build_packets_eq]
  rcases hinv with ⟨h1, h2, _⟩ | ⟨h1, h2⟩
  · rw [h1]
    simpa using h2
  · cases hl : (t.foldl (build_packets_step our_routerid destination_router_id)
        ([], empty_rip_packet our_routerid ++
          rip_entry destination_router_id INFINITE_METRIC)).1 with
    | nil => exact absurd hl h2
    | cons a l =>
      rw [hl] at h1
      simpa using h1

theorem mem_table_update {Q : ℕ × RoutingTableEntry → Prop}
    (t : RoutingTable) (d : ℕ) (f : RoutingTableEntry → RoutingTableEntry)
    (h : ∀ p ∈ t, Q p) (hf : ∀ p ∈ t, Q (p.1, f p.2)) :
    ∀ p ∈ table_update t d f, Q p := by
  intro p hp
  rw [table_update, List.mem_map] at hp
  obtain ⟨q, hq, hpq⟩ := hp
  by_cases hd : q.1 = d
  · rw [if_pos hd] at hpq
    exact hpq ▸ hf q hq
  · rw [if_neg hd] at hpq
    exact hpq ▸ h q hq

theorem mem_add_to_table {Q : ℕ × RoutingTableEntry → Prop}
    (cfg : Config) (now : ℤ) (t : RoutingTable) (dest next_hop metric : ℕ)
    (h : ∀ p ∈ t, Q p)
    (hupd : ∀ p ∈ t, Q (p.1, p.2.update_entry now next_hop metric))
    (hnew : dest ≠ cfg.router_id → metric < INFINITE_METRIC →
      Q (dest, RoutingTableEntry.create now next_hop metric)) :
    ∀ p ∈ add_to_table cfg now t dest next_hop metric, Q p := by
  intro p hp
  rw [add_to_table] at hp
  split_ifs at hp with h1 h2 h3
  · exact h p hp
  · exact mem_table_update t dest _ h hupd p hp
  · rw [List.mem_append] at hp
    rcases hp with hp | hp
    · exact h p hp
    · simp only [List.mem_singleton] at hp
      exact hp ▸ hnew h1 h3
  · exact h p hp

theorem decode_entries_bounds (msg : List ℕ) (pkt : RipPacketD)
    (h : RipPacket.decode msg = some pkt) :
    ∀ ent ∈ pkt.entries,
      (1 ≤ ent.routerid ∧ ent.routerid ≤ 64000) ∧ 1 ≤ ent.metric ∧ ent.metric ≤ 16 := by
  rw [RipPacket.decode] at h
  split_ifs at h with hv
  · obtain rfl := Option.some_inj.mp h
    intro ent hent
    simp only [List.mem_filterMap] at hent
    obtain ⟨c, _, hcd⟩ := hent
    split_ifs at hcd with hval
    obtain rfl := Option.some_inj.mp hcd
    simp only [validate_rip_entry, routerid_is_valid, metric_is_valid, Bool.and_eq_true,
      decide_eq_true_eq, and_assoc] at hval
    obtain ⟨_, _, _, hr1, hr2, _, hm1, hm2⟩ := hval
    exact ⟨⟨hr1, hr2⟩, hm1, hm2⟩

theorem lookup_output_metric_mem (cfg : Config) (rid port lm : ℕ)
    (h : cfg.lookup_output rid = some (port, lm)) :
    ∃ q ∈ cfg.outputs, q.2.2 = lm := by
  rw [Config.lookup_output] at h
  rcases hfind : cfg.outputs.find? (fun p => p.1 == rid) with _ | q
  · rw [hfind] at h
    cases h
  · rw [hfind] at h
    have hq := List.mem_of_find?_eq_some hfind
    simp only [Option.map_some'] at h
    have hq2 : q.2 = (port, lm) := Option.some_inj.mp h
    exact ⟨q, hq, by rw [hq2]⟩

theorem mem_incoming_message {Q : ℕ × RoutingTableEntry → Prop} {M : ℕ → Prop}
    (cfg : Config) (now : ℤ) (t : RoutingTable) (msg : List ℕ)
    (hMout : ∀ q ∈ cfg.outputs, M q.2.2)
    (hMmin : ∀ lm am, M lm → 1 ≤ am → am ≤ 16 →
      M (min (lm + am) INFINITE_METRIC))
    (h : ∀ p ∈ t, Q p)
    (hupd : ∀ (p : ℕ × RoutingTableEntry) (nh m : ℕ), M m →
      Q p → Q (p.1, p.2.update_entry now nh m))
    (hnew : ∀ (dest nh m : ℕ), dest ≠ cfg.router_id → M m → m < INFINITE_METRIC →
      Q (dest, RoutingTableEntry.create now nh m)) :
    ∀ p ∈ incoming_message cfg now t msg, Q p := by
  rcases hdec : RipPacket.decode msg with _ | pkt
  · simp only [incoming_message, hdec]
    exact h
  · rcases hlo : cfg.lookup_output pkt.routerid with _ | ⟨port, lm⟩
    · simp only [incoming_message, hdec, hlo]
      exact h
    · simp only [incoming_message, hdec, hlo]
      have hlm : M lm := by
        obtain ⟨q, hq, hq2⟩ := lookup_output_metric_mem cfg pkt.routerid port lm hlo
        exact hq2 ▸ hMout q hq
      have hents := decode_entries_bounds msg pkt hdec
      have h1 : ∀ p ∈ add_to_table cfg now t pkt.routerid pkt.routerid lm, Q p :=
        mem_add_to_table cfg now t _ _ _ h
          (fun p hp => hupd p _ lm hlm (h p hp))
          (fun hne hlt => hnew _ _ _ hne hlm hlt)
      have main : ∀ (es : List RipEntryD), (∀ e ∈ es, 1 ≤ e.metric ∧ e.metric ≤ 16) →
          ∀ (acc : RoutingTable), (∀ p ∈ acc, Q p) →
          ∀ p ∈ es.foldl (fun acc ent =>
            add_to_table cfg now acc ent.routerid pkt.routerid
              (min (lm + ent.metric) INFINITE_METRIC)) acc, Q p := by
        intro es
        induction es with
        | nil => intro _ acc hacc; exact hacc
        | cons e es ih =>
          intro hb acc hacc
          rw [List.foldl_cons]
          have hbe := hb e (List.mem_cons_self e es)
          have hm : M (min (lm + e.metric) INFINITE_METRIC) :=
            hMmin lm e.metric hlm hbe.1 hbe.2
          exact ih (fun d hd => hb d (List.mem_cons_of_mem _ hd)) _
            (mem_add_to_table cfg now acc _ _ _ hacc
              (fun p hp => hupd p _ _ hm (hacc p hp))
              (fun hne hlt => hnew _ _ _ hne hm hlt))
      exact main pkt.entries (fun e he => (hents e he).2) _ h1

theorem mem_send_any_updates_table {Q : ℕ × RoutingTableEntry → Prop}
    (now : ℤ) (t : RoutingTable)
    (h : ∀ p ∈ t, Q p)
    (hB : ∀ p ∈ t, Q p → Q (p.1, p.2.begin_deletion now)) :
    ∀ p ∈ send_any_updates_table now t, Q p := by
  intro p hp
  rw [send_any_updates_table, List.mem_map] at hp
  obtain ⟨q, hq, hpq⟩ := hp
  have hq' : q ∈ t := List.mem_of_mem_filter hq
  by_cases hb : q.2.should_begin_deletion now = true
  · rw [if_pos hb] at hpq
    exact hpq ▸ hB q hq' (h q hq')
  · rw [if_neg hb] at hpq
    exact hpq ▸ h q hq'

theorem update_entry_eq (e : RoutingTableEntry) (now : ℤ) (nh nm : ℕ) :
    e.update_entry now nh nm =
      if nh = e.next_hop then
        ⟨e.next_hop, nm, now + ENTRY_TIMEOUT_DELAY,
          if nm < INFINITE_METRIC then none else e.time_deletion_due⟩
      else if nm < e.metric then
        ⟨nh, nm, now + ENTRY_TIMEOUT_DELAY,
          if nm < INFINITE_METRIC then none else e.time_deletion_due⟩
      else if nm ≠ INFINITE_METRIC ∧ nm = e.metric ∧
          e.over_halfway_to_update_due now = true then
        ⟨nh, nm, now + ENTRY_TIMEOUT_DELAY,
          if nm < INFINITE_METRIC then none else e.time_deletion_due⟩
      else e := by
  by_cases h1 : nh = e.next_hop
  · simp [RoutingTableEntry.update_entry, h1]
  · by_cases h2 : nm < e.metric
    · simp [RoutingTableEntry.update_entry, h1, h2]
    · by_cases h3 : nm ≠ INFINITE_METRIC ∧ nm = e.metric ∧
          e.over_halfway_to_update_due now = true
      · obtain ⟨h3a, h3b, h3c⟩ := h3
        subst h3b
        simp [RoutingTableEntry.update_entry, h1, h2, h3a, h3c]
      · simp [RoutingTableEntry.update_entry, h1, h2, h3]

theorem update_entry_metric_cases (e : RoutingTableEntry) (now : ℤ) (nh nm : ℕ) :
    (e.update_entry now nh nm).metric = nm ∨
      (e.update_entry now nh nm).metric = e.metric := by
  rw [update_entry_eq]
  split_ifs <;> simp

theorem update_entry_deletion_inv (e : RoutingTableEntry) (now : ℤ) (nh nm : ℕ)
    (hm : nm ≤ INFINITE_METRIC)
    (he : e.time_deletion_due.isSome = true → e.metric = INFINITE_METRIC) :
    (e.update_entry now nh nm).time_deletion_due.isSome = true →
      (e.update_entry now nh nm).metric = INFINITE_METRIC := by
  rw [update_entry_eq]
  by_cases hlt : nm < INFINITE_METRIC
  · split_ifs <;> simp_all
  · have hnm : nm = INFINITE_METRIC := by omega
    split_ifs <;> simp_all

theorem update_refreshes_clears (e : RoutingTableEntry) (now : ℤ) (nh nm : ℕ)
    (h : e.update_refreshes now nh nm = true)
    (hlt : (e.update_entry now nh nm).metric < INFINITE_METRIC) :
    (e.update_entry now nh nm).time_deletion_due = none := by
  by_cases h1 : nh = e.next_hop
  · rw [update_entry_eq, if_pos h1] at hlt ⊢
    exact if_pos hlt
  · by_cases h2 : nm < e.metric
    · rw [update_entry_eq, if_neg h1, if_pos h2] at hlt ⊢
      exact if_pos hlt
    · by_cases h3 : nm ≠ INFINITE_METRIC ∧ nm = e.metric ∧
          e.over_halfway_to_update_due now = true
      · rw [update_entry_eq, if_neg h1, if_neg h2, if_pos h3] at hlt ⊢
        exact if_pos hlt
      · exfalso
        simp only [RoutingTableEntry.update_refreshes, Bool.or_eq_true, Bool.and_eq_true,
          decide_eq_true_eq] at h
        rcases h with (h | h) | ⟨⟨ha, hb⟩, hc⟩
        · exact h1 h
        · exact h2 h
        · exact h3 ⟨ha, hb, hc⟩

/-- C9: in every reachable state the routing table has no entry keyed by
the router's own id — packets advertising it are ignored by
`add_to_table`'s self-check — so looking up the own id always fails. -/
theorem no_self_route (cfg : Config) (t : RoutingTable) (hr : Reachable cfg t) :
    (∀ p ∈ t, p.1 ≠ cfg.router_id) ∧ table_lookup t cfg.router_id = none := by
  have key : ∀ p ∈ t, p.1 ≠ cfg.router_id := by
    induction hr with
    | init => simp
    | recv t now msg hr ih =>
      exact mem_incoming_message (M := fun _ => True) cfg now t msg
        (fun _ _ => trivial) (fun _ _ _ _ _ => trivial) ih
        (fun p nh m _ hq => hq) (fun dest nh m hne _ _ => hne)
    | tick t now hr ih =>
      exact mem_send_any_updates_table now t ih (fun p _ hq => hq)
  refine ⟨key, ?_⟩
  rw [table_lookup, List.find?_eq_none.mpr, Option.map_none']
  intro p hp
  simpa using key p hp

/-- Closed instance of `no_self_route`: after receiving a packet that
advertises the router's own id as a destination, the table still has no
route to self. -/
theorem no_self_route_witness :
    table_lookup
      (incoming_message ⟨1, [(2, 2000, 1)]⟩ 0 [] (empty_rip_packet 2 ++ rip_entry 1 4)) 1 =
      none :=
  (no_self_route ⟨1, [(2, 2000, 1)]⟩ _
    (Reachable.recv [] 0 (empty_rip_packet 2 ++ rip_entry 1 4) Reachable.init)).2

/-- C8: with a validly configured set of link metrics, every entry of
every reachable routing table has a metric between 1 and 16; incoming
advertisements are clamped by `min (link + advertised) 16` inside
`incoming_message`, and `begin_deletion` writes exactly 16. -/
theorem reachable_metric_bounds (cfg : Config) (t : RoutingTable)
    (hcfg : outputs_metrics_valid cfg) (hr : Reachable cfg t) :
    (∀ p ∈ t, 1 ≤ p.2.metric ∧ p.2.metric ≤ INFINITE_METRIC)
    ∧ (∀ (e : RoutingTableEntry) (now : ℤ),
        (e.begin_deletion now).metric = INFINITE_METRIC) := by
  refine ⟨?_, fun e now => rfl⟩
  induction hr with
  | init => simp
  | recv t now msg hr ih =>
    refine mem_incoming_message (M := fun m => 1 ≤ m ∧ m ≤ INFINITE_METRIC)
      cfg now t msg hcfg ?_ ih ?_ ?_
    · intro lm am hM h1 h2
      simp only [INFINITE_METRIC] at *
      omega
    · intro p nh m hM hQ
      obtain ⟨hM1, hM2⟩ := hM
      obtain ⟨hQ1, hQ2⟩ := hQ
      dsimp only
      rcases update_entry_metric_cases p.2 now nh m with hc | hc <;>
        exact ⟨by omega, by omega⟩
    · intro dest nh m _ hM _
      exact hM
  | tick t now hr ih =>
    refine mem_send_any_updates_table now t ih ?_
    intro p _ _
    exact ⟨(by decide : (1 : ℕ) ≤ INFINITE_METRIC),
      (by decide : INFINITE_METRIC ≤ INFINITE_METRIC)⟩

/-- Closed instance of `reachable_metric_bounds` at a reachable state
holding the learned route `(3, next-hop 2, metric 5)`. -/
theorem reachable_metric_bounds_witness :
    outputs_metrics_valid ⟨1, [(2, 2000, 1)]⟩ ∧
      (1 ≤ (3, RoutingTableEntry.mk 2 5 30 none).2.metric ∧
        (3, RoutingTableEntry.mk 2 5 30 none).2.metric ≤ INFINITE_METRIC) :=
  ⟨by unfold outputs_metrics_valid; decide,
    (reachable_metric_bounds ⟨1, [(2, 2000, 1)]⟩ _ (by unfold outputs_metrics_valid; decide)
      (Reachable.recv [] 0 (empty_rip_packet 2 ++ rip_entry 3 4) Reachable.init)).1
      (3, ⟨2, 5, 30, none⟩) (by decide)⟩

/-- C4: in every reachable state (under a validly configured set of link
metrics) an entry with `time_deletion_due` set has metric exactly 16;
`begin_deletion` establishes this shape, and any timer-refreshing update
whose resulting metric is below 16 clears `time_deletion_due`. -/
theorem deletion_due_implies_infinite_metric (cfg : Config) (t : RoutingTable)
    (hcfg : outputs_metrics_valid cfg) (hr : Reachable cfg t) :
    (∀ p ∈ t, p.2.time_deletion_due.isSome = true → p.2.metric = INFINITE_METRIC)
    ∧ (∀ (e : RoutingTableEntry) (now : ℤ),
        e.begin_deletion now =
          ⟨e.next_hop, INFINITE_METRIC, e.time_update_due,
            some (now + GARBAGE_COLLECTION_DELAY)⟩)
    ∧ (∀ (e : RoutingTableEntry) (now : ℤ) (nh nm : ℕ),
        e.update_refreshes now nh nm = true →
        (e.update_entry now nh nm).metric < INFINITE_METRIC →
        (e.update_entry now nh nm).time_deletion_due = none) := by
  refine ⟨?_, fun e now => rfl, update_refreshes_clears⟩
  induction hr with
  | init => simp
  | recv t now msg hr ih =>
    refine mem_incoming_message (M := fun m => m ≤ INFINITE_METRIC) cfg now t msg
      (fun q hq => (hcfg q hq).2) ?_ ih ?_ ?_
    · intro lm am hM h1 h2
      exact min_le_right _ _
    · intro p nh m hM hQ
      dsimp only at hQ ⊢
      exact update_entry_deletion_inv p.2 now nh m hM hQ
    · intro dest nh m _ _ _ habs
      simp [RoutingTableEntry.create] at habs
  | tick t now hr ih =>
    refine mem_send_any_updates_table now t ih ?_
    intro p _ _ _
    rfl

/-- Closed instance of `deletion_due_implies_infinite_metric` at a
reachable state in which the entry for destination 2 has timed out and
entered the deletion phase. -/
theorem deletion_due_implies_infinite_metric_witness :
    outputs_metrics_valid ⟨1, [(2, 2000, 1)]⟩ ∧
      (2, RoutingTableEntry.mk 2 16 30 (some 120)).2.metric = INFINITE_METRIC :=
  ⟨by unfold outputs_metrics_valid; decide,
    (deletion_due_implies_infinite_metric ⟨1, [(2, 2000, 1)]⟩
        (send_any_updates_table 100
          (incoming_message ⟨1, [(2, 2000, 1)]⟩ 0 []
            (empty_rip_packet 2 ++ rip_entry 3 4)))
        (by unfold outputs_metrics_valid; decide)
        (Reachable.tick _ 100
          (Reachable.recv [] 0 (empty_rip_packet 2 ++ rip_entry 3 4)
            Reachable.init))).1
      (2, ⟨2, 16, 30, some 120⟩) (by decide) (by decide)⟩

-- Concrete sanity checks of the embedding on small inputs.
example : RoutingTableEntry.create 0 2 5 =
    ⟨2, 5, 30, none⟩ := by decide

example : (RoutingTableEntry.create 0 2 5).update_entry 20 3 5 =
    ⟨3, 5, 50, none⟩ := by decide

example : (RoutingTableEntry.create 0 2 5).update_entry 4 3 5 =
    ⟨2, 5, 30, none⟩ := by decide

example : (RoutingTableEntry.create 0 2 5).should_begin_deletion 100 = true := by decide

example : from_bytes (to_bytes 64000 2) = 64000 := by decide

example : empty_rip_packet 1 = [2, 2, 0, 1] := by decide

example : rip_entry 3 4 = [0, 2, 0, 0, 0, 0, 0, 3, 0, 0, 0, 0, 0, 0, 0, 0, 0, 0, 0, 4] := by
  decide

example :
    RipPacket.decode (empty_rip_packet 2 ++ rip_entry 3 4) =
      some ⟨2, [⟨3, 4⟩]⟩ := by decide

example :
    incoming_message ⟨1, [(2, 2000, 1)]⟩ 0 [] (empty_rip_packet 2 ++ rip_entry 3 4) =
      [(2, ⟨2, 1, 30, none⟩), (3, ⟨2, 5, 30, none⟩)] := by decide

example :
    send_any_updates_table 100
      [(2, ⟨2, 1, 30, none⟩), (3, ⟨2, 5, 30, none⟩)] =
      [(2, ⟨2, 16, 30, some 120⟩), (3, ⟨2, 16, 30, some 120⟩)] := by decide

example :
    build_packets 1 [(3, ⟨2, 5, 30, none⟩), (4, ⟨7, 3, 30, none⟩)] 7 =
      [empty_rip_packet 1 ++ rip_entry 7 16 ++ rip_entry 3 5 ++ rip_entry 4 16] := by decide
